import Mathlib

/-!
Verification development for the LCOT plugin (`src/lcot.py`): a tool that
replicates a marketplace lot into several duration-priced variants.

The Python source is shallowly embedded below.  Python floats are modelled
by `ℚ` (every numeral handled by the claims is an exact decimal), Python
strings by `String`/`List Char`, Python dicts by ordered association lists,
and the regular-expression cascade of `_replace_hours_in_title` by a small
backtracking matcher faithful to `re`'s leftmost / first-alternative /
greedy semantics for the fixed patterns of the source.
-/

namespace Lcot

/-! ### Character-level helpers (Python `str` methods, `re` char classes) -/

/-- Model of Python `str.lower` on one character, covering the ASCII and
Cyrillic letters that appear in the plugin's texts. -/
def pyLower (c : Char) : Char :=
  if 'A' ≤ c ∧ c ≤ 'Z' then Char.ofNat (c.toNat + 32)
  else if 'А' ≤ c ∧ c ≤ 'Я' then Char.ofNat (c.toNat + 32)
  else if c = 'Ё' then 'ё'
  else c

def pyLowerL (l : List Char) : List Char := l.map pyLower

/-- Python `\s` (the whitespace characters found in chat text). -/
def isSpaceCh (c : Char) : Bool :=
  c == ' ' || c == '\t' || c == '\n' || c == '\r' || c == '\x0b' || c == '\x0c'

def isDigitCh (c : Char) : Bool := c.isDigit

/-- Cyrillic letters (both cases). -/
def isCyr (c : Char) : Bool :=
  ('а' ≤ c && c ≤ 'я') || ('А' ≤ c && c ≤ 'Я') || c == 'ё' || c == 'Ё'

/-- Python `\w` (word character), modelled over the Latin and Cyrillic
ranges plus digits and underscore — the alphabets of the plugin's texts. -/
def isWordCh (c : Char) : Bool := c.isAlphanum || c == '_' || isCyr c

/-- Python `str.strip()`. -/
def stripWs (l : List Char) : List Char :=
  ((l.dropWhile isSpaceCh).reverse.dropWhile isSpaceCh).reverse

/-- Separator class of `re.split(r"[,\s;]+", ...)`. -/
def isSepCh (c : Char) : Bool := c == ',' || c == ';' || isSpaceCh c

/-- Maximal runs of non-separator characters (the non-empty tokens produced
by `re.split(r"[,\s;]+", ...)`; the source skips empty tokens). -/
def tokensAux : List Char → List Char → List (List Char)
  | [], acc => if acc.isEmpty then [] else [acc.reverse]
  | c :: rest, acc =>
    if isSepCh c then
      if acc.isEmpty then tokensAux rest [] else acc.reverse :: tokensAux rest []
    else tokensAux rest (c :: acc)

def pyTokens (l : List Char) : List (List Char) := tokensAux l []

/-- `list(dict.fromkeys(l))`: de-duplication keeping first occurrences. -/
def pyDedupAux : List ℚ → List ℚ → List ℚ
  | [], _ => []
  | x :: xs, seen =>
    if seen.any (fun y => decide (y = x)) then pyDedupAux xs seen
    else x :: pyDedupAux xs (x :: seen)

def pyDedup (l : List ℚ) : List ℚ := pyDedupAux l []

/-- `list(dict.fromkeys(l))` for integers (used for lot ids). -/
def pyDedupZAux : List ℤ → List ℤ → List ℤ
  | [], _ => []
  | x :: xs, seen =>
    if seen.any (fun y => decide (y = x)) then pyDedupZAux xs seen
    else x :: pyDedupZAux xs (x :: seen)

def pyDedupZ (l : List ℤ) : List ℤ := pyDedupZAux l []

/-- Python `str.isdigit()` for ASCII digit strings. -/
def pyIsDigit (l : List Char) : Bool := !l.isEmpty && l.all isDigitCh

def digitsToNat (l : List Char) : ℕ :=
  l.foldl (fun acc c => acc * 10 + (c.toNat - '0'.toNat)) 0

/-! ### Numeric helpers (Python `round`, `float` formatting)

Rational arithmetic is written with `Rat.divInt` over the `num`/`den`
projections so that every definition evaluates inside the kernel; the
bridge lemmas in the theorem section equate these operations with the
standard `ℚ` operations. -/

def qadd (a b : ℚ) : ℚ := Rat.divInt (a.num * b.den + b.num * a.den) (a.den * b.den)

def qsub (a b : ℚ) : ℚ := Rat.divInt (a.num * b.den - b.num * a.den) (a.den * b.den)

def qmul (a b : ℚ) : ℚ := Rat.divInt (a.num * b.num) (a.den * b.den)

def qdiv (a b : ℚ) : ℚ := Rat.divInt (a.num * b.den) (a.den * b.num)

/-- Floor of a rational (`Int.ediv` by the positive denominator). -/
def ratFloor (q : ℚ) : ℤ := Int.ediv q.num q.den

/-- Python `round(x)`: round half to even. -/
def pyRound (q : ℚ) : ℤ :=
  if qsub q ((ratFloor q : ℤ) : ℚ) < mkRat 1 2 then ratFloor q
  else if mkRat 1 2 < qsub q ((ratFloor q : ℤ) : ℚ) then ratFloor q + 1
  else if ratFloor q % 2 = 0 then ratFloor q else ratFloor q + 1

/-- Python `round(x, 2)`. -/
def round2 (q : ℚ) : ℚ := Rat.divInt (pyRound (qmul q 100)) 100

def natPad6 (n : ℕ) : String :=
  let s := Nat.repr n
  String.mk (List.replicate (6 - s.length) '0') ++ s

def intStr (n : ℤ) : String :=
  if n < 0 then "-" ++ Nat.repr n.natAbs else Nat.repr n.natAbs

/-- `_fmt_price` (src 42–43): Python `f"{float(v):.6f}"`, a fixed 6-decimal
rendering. -/
def _fmt_price (v : ℚ) : String :=
  if v < 0 then
    let n := (pyRound (qmul (-v) 1000000)).toNat
    "-" ++ Nat.repr (n / 1000000) ++ "." ++ natPad6 (n % 1000000)
  else
    let n := (pyRound (qmul v 1000000)).toNat
    Nat.repr (n / 1000000) ++ "." ++ natPad6 (n % 1000000)

/-- `_hours_str` (src 162–163): Python `str(hours)` with trailing zeros and
trailing dot stripped.  The hour values the plugin produces are exact
two-decimal numbers, for which `str` prints the shortest decimal; values
with other denominators never reach this function in the plugin and fall
back to a six-decimal rendering. -/
def _hours_str (q : ℚ) : String :=
  let c := qmul q 100
  if c.den = 1 then
    let sign := if q < 0 then "-" else ""
    let n := c.num.natAbs
    let ip := n / 100
    let fr := n % 100
    if fr = 0 then sign ++ Nat.repr ip
    else if fr % 10 = 0 then sign ++ Nat.repr ip ++ "." ++ Nat.repr (fr / 10)
    else if fr < 10 then sign ++ Nat.repr ip ++ ".0" ++ Nat.repr fr
    else sign ++ Nat.repr ip ++ "." ++ Nat.repr fr
  else _fmt_price q

/-! ### Phrase formatting (`PhraseFormatter`) -/

/-- `abs(x - round(x)) < 1e-9`, the float-tolerance integrality test used by
the day-phrase helpers. -/
def isIntEps (q : ℚ) : Bool :=
  let d := qsub q ((pyRound q : ℤ) : ℚ)
  (if d < 0 then -d else d) < mkRat 1 1000000000

/-- `_ru_num_word` (src 132–148): Slavic pluralization.  `f1`/`f2`/`f3` are
the "one"/"few"/"many" forms; a non-integer numeral selects `forms[1]`,
the "few" form, in the source. -/
def _ru_num_word (q : ℚ) (f1 f2 f3 : String) : String :=
  if q.den ≠ 1 then f2
  else
    let n := (pyRound q) % 100
    if 11 ≤ n ∧ n ≤ 19 then f3
    else
      let n1 := n % 10
      if n1 = 1 then f1
      else if 2 ≤ n1 ∧ n1 ≤ 4 then f2
      else f3

/-- The Locale A pluralization rule as the (amended) specification words
it: a non-integer numeral takes the "few" form; otherwise `n = h mod 100`
selects "many" for 11–19, else by `n mod 10` the "one" form for 1, the
"few" form for 2–4, and the "many" form otherwise. -/
def ruPluralRule (q : ℚ) (one few many : String) : String :=
  if q.den ≠ 1 then few
  else
    let n := q.num % 100
    if 11 ≤ n ∧ n ≤ 19 then many
    else if n % 10 = 1 then one
    else if 2 ≤ n % 10 ∧ n % 10 ≤ 4 then few
    else many

/-- `_ru_hours_phrase` (src 150–153). -/
def _ru_hours_phrase (q : ℚ) : String :=
  _hours_str q ++ " " ++ _ru_num_word q "час" "часа" "часов"

/-- `_ru_days_phrase` (src 116–123). -/
def _ru_days_phrase (q : ℚ) : Option String :=
  if isIntEps q then
    let h := pyRound q
    if 24 ≤ h ∧ h % 24 = 0 then
      let d := h / 24
      some (intStr d ++ " " ++ _ru_num_word (d : ℚ) "день" "дня" "дней")
    else none
  else none

/-- `_ru_duration_phrase` (src 125–130). -/
def _ru_duration_phrase (q : ℚ) : String :=
  match _ru_days_phrase q with
  | some s => s
  | none => _ru_hours_phrase q

/-- `_en_duration_phrase` (src 103–114). -/
def _en_duration_phrase (q : ℚ) : String :=
  let dayPart : Option String :=
    if isIntEps q then
      let h := pyRound q
      if 24 ≤ h ∧ h % 24 = 0 then
        let d := h / 24
        some (intStr d ++ " " ++ (if d = 1 then "day" else "days"))
      else none
    else none
  match dayPart with
  | some s => s
  | none =>
    let d := qsub q 1
    let u0 := if (if d < 0 then -d else d) < mkRat 1 1000000000
              then "hour" else "hours"
    let u := if q.den ≠ 1 then "hours" else u0
    _hours_str q ++ " " ++ u

/-! ### Duration parsing (`_parse_durations`, src 73–101) -/

/-- Hour-unit alternatives of the token regex. -/
def hourUnits : List String := ["h", "ч", "ч.", "час", "часа", "часов"]

/-- Day-unit alternatives of the token regex. -/
def dayUnits : List String := ["d", "д", "дн", "день", "дня", "дней"]

/-- Group 1 of the token regex, `\d+(?:[.,]\d+)?`, together with the
remaining characters of the token.  Returns `none` when the token does not
start with a digit. -/
def tokenNum (l : List Char) : Option (ℚ × List Char) :=
  let ds := l.takeWhile isDigitCh
  let rest := l.dropWhile isDigitCh
  if ds.isEmpty then none
  else
    match rest with
    | sep :: rest2 =>
      if sep == '.' || sep == ',' then
        let fs := rest2.takeWhile isDigitCh
        let rest3 := rest2.dropWhile isDigitCh
        if fs.isEmpty then some ((digitsToNat ds : ℚ), rest)
        else some (qadd (digitsToNat ds : ℚ)
          (Rat.divInt (digitsToNat fs) ((10 : ℤ) ^ fs.length)), rest3)
      else some ((digitsToNat ds : ℚ), rest)
    | [] => some ((digitsToNat ds : ℚ), [])

/-- The hour value denoted by one whitespace-free token, or `none` when the
token does not fully match the grammar `<number>[<unit>]` (src 81–96): a
bare number defaults to hours, a day unit multiplies by 24. -/
def tokenHours (tok : List Char) : Option ℚ :=
  match tokenNum tok with
  | none => none
  | some (v, rest) =>
    if rest.isEmpty then some v
    else if hourUnits.contains (String.mk rest) then some v
    else if dayUnits.contains (String.mk rest) then some (qmul v 24)
    else none

/-- The loop body of `_parse_durations` (src 78–99): the contribution of
one token — its hour value rounded to two decimals when positive, nothing
otherwise. -/
def tokVal (tok : List Char) : Option ℚ :=
  match tokenHours tok with
  | some hv => if 0 < hv then some (round2 hv) else none
  | none => none

/-- `_parse_durations` (src 73–101): lower-case, strip, split on
`[,\s;]+`, read each token, keep positive values rounded to two decimals,
de-duplicate keeping first occurrences, sort ascending. -/
def _parse_durations (text : String) : List ℚ :=
  List.insertionSort (· ≤ ·)
    (pyDedup ((pyTokens (stripWs (pyLowerL text.data))).filterMap tokVal))

/-! ### A small backtracking regex matcher

Faithful to Python `re` semantics for the fixed patterns of
`_replace_hours_in_title`: leftmost match, alternatives tried left to
right, greedy quantifiers (which in these patterns only quantify single
character classes), `\b` word boundaries, `IGNORECASE` via case folding,
and one capturing group (pattern 1's ratio prefix). -/

/-- Character classes appearing in the patterns. -/
inductive CC where
  | digit
  | space
  | hyph
  | one (c : Char)
  | oneOf (cs : List Char)
  deriving DecidableEq

/-- The hyphen-like characters of the source's `HY` class (src 173). -/
def hyphChars : List Char :=
  ['-', '‐', '‑', '‒', '–', '—', '―',
   '−', '﹘', '﹣', '－']

def ccMatch (cc : CC) (c : Char) : Bool :=
  match cc with
  | .digit => isDigitCh c
  | .space => isSpaceCh c
  | .hyph => hyphChars.contains c
  | .one a => pyLower c == a
  | .oneOf cs => cs.contains (pyLower c)

/-- Regex abstract syntax.  `starC`/`plusC` quantify a single character
class (the only quantified sub-expressions in the source's patterns);
`grp` is the single capturing group. -/
inductive RE where
  | eps
  | cls (cc : CC)
  | lit (s : List Char)
  | seq (a b : RE)
  | alt (a b : RE)
  | opt (a : RE)
  | starC (cc : CC)
  | plusC (cc : CC)
  | wb
  | grp (a : RE)
  deriving DecidableEq

/-- Span of the capturing group, when it has matched. -/
abbrev Caps := Option (ℕ × ℕ)

def isWordAt (s : List Char) (j : ℕ) : Bool :=
  match s.get? j with
  | some c => isWordCh c
  | none => false

/-- Python `\b`: a word character on exactly one side of the position. -/
def isBoundary (s : List Char) (i : ℕ) : Bool :=
  let prev := if i = 0 then false else isWordAt s (i - 1)
  prev != isWordAt s i

/-- Length of the maximal run of `cc`-characters starting at `i`. -/
def runLenAux (cc : CC) : List Char → ℕ
  | [] => 0
  | c :: rest => if ccMatch cc c then runLenAux cc rest + 1 else 0

def runLen (cc : CC) (s : List Char) (i : ℕ) : ℕ := runLenAux cc (s.drop i)

/-- Greedy choice of how many characters a `starC` consumes: longest
first. -/
def tryDown (k : ℕ → Option (ℕ × Caps)) : ℕ → Option (ℕ × Caps)
  | 0 => k 0
  | n + 1 =>
    match k (n + 1) with
    | some r => some r
    | none => tryDown k n

/-- Greedy choice for `plusC`: longest first, at least one character. -/
def tryDown1 (k : ℕ → Option (ℕ × Caps)) : ℕ → Option (ℕ × Caps)
  | 0 => none
  | n + 1 =>
    match k (n + 1) with
    | some r => some r
    | none => tryDown1 k n

/-- Case-insensitive literal match (pattern literals are stored in lower
case). -/
def litAt (s : List Char) : List Char → ℕ → Option ℕ
  | [], i => some i
  | c :: rest, i =>
    match s.get? i with
    | some x => if pyLower x == c then litAt s rest (i + 1) else none
    | none => none

/-- Backtracking matcher in continuation-passing style.  `k` receives the
end position and the captures; the result of a top-level call is the end
position and captures of the first match in backtracking order. -/
def reMatch (s : List Char) : RE → ℕ → Caps → (ℕ → Caps → Option (ℕ × Caps)) →
    Option (ℕ × Caps)
  | .eps, i, g, k => k i g
  | .cls cc, i, g, k =>
    match s.get? i with
    | some c => if ccMatch cc c then k (i + 1) g else none
    | none => none
  | .lit l, i, g, k =>
    match litAt s l i with
    | some j => k j g
    | none => none
  | .seq a b, i, g, k => reMatch s a i g (fun j g2 => reMatch s b j g2 k)
  | .alt a b, i, g, k =>
    match reMatch s a i g k with
    | some r => some r
    | none => reMatch s b i g k
  | .opt a, i, g, k =>
    match reMatch s a i g k with
    | some r => some r
    | none => k i g
  | .starC cc, i, g, k => tryDown (fun n => k (i + n) g) (runLen cc s i)
  | .plusC cc, i, g, k => tryDown1 (fun n => k (i + n) g) (runLen cc s i)
  | .wb, i, g, k => if isBoundary s i then k i g else none
  | .grp a, i, g, k => reMatch s a i g (fun j _ => k j (some (i, j)))

/-- Replacement templates: a constant string, or (for pattern 1) the text
of group 1 followed by a constant suffix. -/
inductive Repl where
  | const (cs : List Char)
  | g1 (suffix' : List Char)
  deriving DecidableEq

def applyRepl (r : Repl) (s : List Char) (g : Caps) : List Char :=
  match r with
  | .const cs => cs
  | .g1 suf =>
    (match g with
     | some (a, b) => (s.drop a).take (b - a)
     | none => []) ++ suf

/-- One pass of `re.subn`: scan left to right from position `i`, replacing
up to `lim` non-overlapping matches, as Python does (an empty match also
copies the current character and advances). -/
def subnAux (p : RE) (r : Repl) (s : List Char) : ℕ → ℕ → ℕ → (List Char × ℕ)
  | 0, _, i => (s.drop i, 0)
  | _ + 1, 0, i => (s.drop i, 0)
  | fuel + 1, lim + 1, i =>
    match reMatch s p i none (fun j g => some (j, g)) with
    | some (j, g) =>
      if j > i then
        (applyRepl r s g ++ (subnAux p r s fuel lim j).1,
         (subnAux p r s fuel lim j).2 + 1)
      else
        match s.get? i with
        | some c =>
          (applyRepl r s g ++ c :: (subnAux p r s fuel lim (i + 1)).1,
           (subnAux p r s fuel lim (i + 1)).2 + 1)
        | none => (applyRepl r s g, 1)
    | none =>
      match s.get? i with
      | some c =>
        (c :: (subnAux p r s fuel (lim + 1) (i + 1)).1,
         (subnAux p r s fuel (lim + 1) (i + 1)).2)
      | none => ([], 0)

/-- `re.subn(p, r, s)` (all occurrences). -/
def pySubn (p : RE) (r : Repl) (s : List Char) : List Char × ℕ :=
  subnAux p r s (s.length + 2) (s.length + 2) 0

/-- `re.sub(p, r, s, count=1)`. -/
def pySub1 (p : RE) (r : Repl) (s : List Char) : List Char :=
  (subnAux p r s (s.length + 2) 1 0).1

/-- Number of matches a pattern has in `s` (the count `re.subn` reports,
which does not depend on the replacement). -/
def matchCount (p : RE) (s : List Char) : ℕ := (pySubn p (.const []) s).2

/-! ### The pattern cascades of `_replace_hours_in_title` (src 165–240) -/

def rseq (l : List RE) : RE := l.foldr RE.seq RE.eps

def rstr (s : String) : RE := RE.lit s.data

def raltS : List String → RE
  | [] => RE.eps
  | [s] => rstr s
  | s :: rest => RE.alt (rstr s) (raltS rest)

/-- `\d+(?:[.,]\d+)?` -/
def reNum : RE :=
  RE.seq (RE.plusC .digit)
    (RE.opt (RE.seq (RE.cls (.oneOf ['.', ','])) (RE.plusC .digit)))

/-- `\s*` -/
def reWs : RE := RE.starC .space

/-- `ч(?:\.|ас(?:а|ов)?)?` -/
def reChasUnit : RE :=
  RE.seq (rstr "ч")
    (RE.opt (RE.alt (rstr ".")
      (RE.seq (rstr "ас") (RE.opt (RE.alt (rstr "а") (rstr "ов"))))))

/-- The five Russian pattern regexes, in the source's priority order
(src 180–194). -/
def ruREs : List RE :=
  [ -- (\b1\s*(?:ч|час(?:а|ов)?)?\.?\s*(?:HY|=)\s*)\d+(?:[.,]\d+)?\s*(?:ч(?:\.|ас(?:а|ов)?)?)\b
    rseq [RE.grp (rseq
        [RE.wb, rstr "1", reWs,
         RE.opt (RE.alt (rstr "ч")
           (RE.seq (rstr "час") (RE.opt (RE.alt (rstr "а") (rstr "ов"))))),
         RE.opt (rstr "."), reWs,
         RE.alt (RE.cls .hyph) (rstr "="), reWs]),
      reNum, reWs, reChasUnit, RE.wb],
    -- \b(?:на|от)\s*\d+(?:[.,]\d+)?\s*(?:ч(?:\.|ас(?:а|ов)?)?)\b
    rseq [RE.wb, RE.alt (rstr "на") (rstr "от"), reWs, reNum, reWs,
      reChasUnit, RE.wb],
    -- \b(?:на|от)\s*\d+(?:[.,]\d+)?\s*(?:дн(?:я|ей)?|день)\b
    rseq [RE.wb, RE.alt (rstr "на") (rstr "от"), reWs, reNum, reWs,
      RE.alt (RE.seq (rstr "дн") (RE.opt (RE.alt (rstr "я") (rstr "ей"))))
        (rstr "день"),
      RE.wb],
    -- \b\d+(?:[.,]\d+)?\s*час(?:а|ов)?\b(?:\s*аренды)?
    rseq [RE.wb, reNum, reWs, rstr "час",
      RE.opt (RE.alt (rstr "а") (rstr "ов")), RE.wb,
      RE.opt (RE.seq reWs (rstr "аренды"))],
    -- (?:•\s*)?аренда\s*\d+(?:[.,]\d+)?\s*ч\.?\b
    rseq [RE.opt (RE.seq (rstr "•") reWs), rstr "аренда", reWs, reNum, reWs,
      rstr "ч", RE.opt (rstr "."), RE.wb] ]

/-- The five English pattern regexes, in the source's priority order
(src 214–225). -/
def enREs : List RE :=
  [ -- \b(?:for|from)\s*\d+(?:[.,]\d+)?\s*(?:h|hr|hrs|hour|hours)\b
    rseq [RE.wb, RE.alt (rstr "for") (rstr "from"), reWs, reNum, reWs,
      raltS ["h", "hr", "hrs", "hour", "hours"], RE.wb],
    -- \b(?:for|from)\s*\d+(?:[.,]\d+)?\s*(?:d|day|days)\b
    rseq [RE.wb, RE.alt (rstr "for") (rstr "from"), reWs, reNum, reWs,
      raltS ["d", "day", "days"], RE.wb],
    -- (?:•\s*)?rental\s*\d+(?:[.,]\d+)?\s*(?:h|hr|hrs)\b
    rseq [RE.opt (RE.seq (rstr "•") reWs), rstr "rental", reWs, reNum, reWs,
      raltS ["h", "hr", "hrs"], RE.wb],
    -- (?:•\s*)?rental\s*\d+(?:[.,]\d+)?\s*(?:d|day|days)\b
    rseq [RE.opt (RE.seq (rstr "•") reWs), rstr "rental", reWs, reNum, reWs,
      raltS ["d", "day", "days"], RE.wb],
    -- \b\d+(?:[.,]\d+)?\s*(?:hour|hours|day|days)\b(?:\s*rental)?
    rseq [RE.wb, reNum, reWs, raltS ["hour", "hours", "day", "days"], RE.wb,
      RE.opt (RE.seq reWs (rstr "rental"))] ]

/-- The Russian pattern cascade with its replacements: pattern 1 keeps its
ratio prefix (group 1) and appends the hour phrase, the others replace by
`на <phrase>`. -/
def ruPats (hours : ℚ) : List (RE × Repl) :=
  let target := "на " ++ _ru_duration_phrase hours
  let ruH := _ru_hours_phrase hours
  match ruREs with
  | p1 :: rest => (p1, Repl.g1 ruH.data) :: rest.map (fun p => (p, Repl.const target.data))
  | [] => []

/-- The English pattern cascade with its replacements (`for <phrase>`). -/
def enPats (hours : ℚ) : List (RE × Repl) :=
  let target := "for " ++ _en_duration_phrase hours
  enREs.map (fun p => (p, Repl.const target.data))

/-- The pattern cascade selected by the locale test of
`_replace_hours_in_title` (src 175/211). -/
def patsFor (locale : String) (hours : ℚ) : List (RE × Repl) :=
  if pyLowerL locale.data = "ru".data then ruPats hours else enPats hours

/-- The cascade loop (src 196–199 / 227–230): first pattern with a positive
substitution count wins. -/
def tryPats : List (RE × Repl) → List Char → Option (List Char)
  | [], _ => none
  | (p, r) :: rest, t =>
    let res := pySubn p r t
    if res.2 > 0 then some res.1 else tryPats rest t

/-- `\s*⏱` (the insertion-point pattern, src 206/237). -/
def clockRE : RE := RE.seq reWs (RE.lit ['⏱'])

/-- Substring containment (Python `in` on strings). -/
def lstartsWith : List Char → List Char → Bool
  | [], _ => true
  | _ :: _, [] => false
  | a :: as', b :: bs => a == b && lstartsWith as' bs

def lcontains (p : List Char) : List Char → Bool
  | [] => lstartsWith p []
  | s@(_ :: rest) => lstartsWith p s || lcontains p rest

/-- `_replace_hours_in_title` (src 165–240): normalise the duration mention
in a text.  A matching pattern has all its occurrences replaced; otherwise,
when insertion is allowed, the phrase is inserted before a `⏱` marker or
appended (unless already present verbatim). -/
def _replace_hours_in_title (title : String) (hours : ℚ) (locale : String)
    (allow_insert : Bool) : String :=
  if title = "" then title
  else
    let t := title.data
    if pyLowerL locale.data = "ru".data then
      let target := "на " ++ _ru_duration_phrase hours
      match tryPats (ruPats hours) t with
      | some r => String.mk r
      | none =>
        if !allow_insert then title
        else
          let ins := (" " ++ target ++ " ").data
          if lcontains ['⏱'] t then
            String.mk (pySub1 clockRE (.const (ins ++ ['⏱'])) t)
          else if !lcontains target.data t then
            String.mk (stripWs (t ++ ins))
          else title
    else
      let target := "for " ++ _en_duration_phrase hours
      match tryPats (enPats hours) t with
      | some r => String.mk r
      | none =>
        if !allow_insert then title
        else
          let ins := (" • " ++ target ++ " ").data
          if lcontains ['⏱'] t then
            String.mk (pySub1 clockRE (.const (ins ++ ['⏱'])) t)
          else if !lcontains target.data t then
            String.mk (stripWs (t ++ ins))
          else title

/-! ### Dicts, store values, identifier recovery (src 45–71, 473–499) -/

/-- Python dict read: `d.get(k)`. -/
def getKV (m : List (String × String)) (k : String) : Option String :=
  (m.find? (fun kv => kv.1 == k)).map (fun kv => kv.2)

/-- Python dict write `d[k] = v`: update in place when the key exists
(dicts preserve insertion order), otherwise append. -/
def setKV (m : List (String × String)) (k v : String) : List (String × String) :=
  if m.any (fun kv => kv.1 == k) then
    m.map (fun kv => if kv.1 == k then (k, v) else kv)
  else m ++ [(k, v)]

/-- A value of a Python attribute (only ints and strings are inspected by
the recovery code). -/
inductive PyVal where
  | pint (n : ℤ)
  | pstr (s : String)
  deriving DecidableEq

/-- What `save_lot` gives back: an int, a string, a mapping with a `url`
field, or something else. -/
inductive SaveRet where
  | rint (n : ℤ)
  | rstr (s : String)
  | rdict (url : String)
  | rnone
  deriving DecidableEq

/-- One item of the account's listing inventory (used by the reverse
lookup of `_guess_created_id`). -/
structure InvItem where
  description : String
  title : String
  id : ℤ
  deriving DecidableEq

/-- Python truthiness of the running `new_id` value (`if not new_id:`
treats both `None` and `0` as absent). -/
def pyTruthy (o : Option ℤ) : Bool :=
  match o with
  | none => false
  | some n => n != 0

def strToInt (l : List Char) : ℤ := (digitsToNat l : ℤ)

/-- `re.search(r"(\d{6,})", u)`: first run of at least six digits, read as
a number (src 477). -/
def slnGo : List Char → List Char → Option ℕ
  | acc, [] => if acc.length ≥ 6 then some (digitsToNat acc.reverse) else none
  | acc, c :: rest =>
    if isDigitCh c then slnGo (c :: acc) rest
    else if acc.length ≥ 6 then some (digitsToNat acc.reverse)
    else slnGo [] rest

def _search_long_num (u : String) : Option ℕ := slnGo [] u.data

/-- `_guess_created_id` (src 45–71): digit-string fields, then a reverse
lookup over the inventory matched by exact title text. -/
def _guess_created_id (fields : List (String × String)) (inv : List InvItem) :
    Option ℤ :=
  let tryKey : String → Option ℤ := fun k =>
    let v := stripWs ((getKV fields k).getD "").data
    if pyIsDigit v ∧ strToInt v > 0 then some (strToInt v) else none
  match tryKey "offer_id" with
  | some n => some n
  | none =>
    match tryKey "id" with
    | some n => some n
    | none =>
      let ru := String.mk (stripWs ((getKV fields "fields[summary][ru]").getD "").data)
      let en := String.mk (stripWs ((getKV fields "fields[summary][en]").getD "").data)
      let titles := ([ru, en].filter (fun t => t ≠ "")).eraseDups
      let hit := inv.find? (fun it =>
        let descr := String.mk (stripWs
          (if it.description ≠ "" then it.description.data else it.title.data))
        descr ≠ "" && titles.contains descr)
      hit.map (fun it => it.id)

/-- Attribute scan over the submitted lot object (src 487–493): first of
`lot_id`, `id`, `offer_id` holding a positive int or positive digit
string. -/
def attrScan (attrs : List (String × PyVal)) : Option ℤ :=
  let read1 : String → Option ℤ := fun a =>
    match ((attrs.find? (fun kv => kv.1 == a)).map (fun kv => kv.2) : Option PyVal) with
    | some (.pint n) => if n > 0 then some n else none
    | some (.pstr s) =>
      if pyIsDigit s.data ∧ strToInt s.data > 0 then some (strToInt s.data) else none
    | none => none
  match read1 "lot_id" with
  | some n => some n
  | none =>
    match read1 "id" with
    | some n => some n
    | none => read1 "offer_id"

/-- Identifier recovery as `cb_create` performs it (src 475–499).  The id
parsed from a mapping response (src 475–479) is bound but then discarded
by the unconditional `new_id = None` reassignment at src 481, so only the
later strategies can produce a value. -/
def cb_recover_id (ret : SaveRet) (attrs : List (String × PyVal))
    (fields : List (String × String)) (inv : List InvItem) : Option ℤ :=
  let _fromDict : Option ℤ :=
    match ret with
    | .rdict u => (_search_long_num u).map (fun n => (n : ℤ))
    | _ => none
  let n0 : Option ℤ := none
  let n1 : Option ℤ :=
    match ret with
    | .rint n => if n > 0 then some n else n0
    | .rstr s => if pyIsDigit s.data then some (strToInt s.data) else n0
    | _ => n0
  let n2 : Option ℤ :=
    if pyTruthy n1 then n1
    else match attrScan attrs with
      | some v => some v
      | none => n1
  if pyTruthy n2 then n2 else _guess_created_id fields inv

/-- `re.search(r"(\d{6,})", u)` applied the way the dead branch at
src 475–479 would have used it: the structured-response id. -/
def dict_response_id (ret : SaveRet) : Option ℤ :=
  match ret with
  | .rdict u => (_search_long_num u).map (fun n => (n : ℤ))
  | _ => none

/-! ### Price computation (src 42–43, 242–254, 451–454) -/

/-- The per-variant price of `cb_create` (src 451–453): multiply by hours,
then apply the discount only when it is non-zero (truthy). -/
def cb_price (price_1h h disc : ℚ) : ℚ :=
  let price := qmul price_1h h
  if disc ≠ 0 then qmul price (qsub 1 (qdiv disc 100)) else price

/-- The preview price of `_build_preview_lines` (src 245–248):
`int(round(pr))`. -/
def preview_price (price_1h h disc : ℚ) : ℤ := pyRound (cb_price price_1h h disc)

/-! ### Session data and the `WAIT_LOT` step (src 273–330) -/

/-- Snapshot of one source lot as captured by `handle_lot_id`
(`BaseListing` in the specification). -/
structure BaseT where
  fields : List (String × String)
  title_ru : String
  title_en : String
  price_1h : ℚ
  deriving DecidableEq

/-- The collaborator object returned by `cardinal.account.get_lot_fields`
(`FunPayAPI.types.LotFields`): its field mapping and fallback attributes. -/
structure LotFieldsT where
  fields : List (String × String)
  title_ru : String
  title_en : String
  price : ℚ
  deriving DecidableEq

/-- The per-chat session dict (src 312–320).  `base_fields`, `s_title_ru`,
`s_title_en` and `s_price_1h` model the legacy single-lot keys read with
defaults by `cb_create` (src 423–429). -/
structure SessT where
  lot_ids : List ℤ
  bases : List (ℤ × BaseT)
  price_1h : ℚ
  title_ru : String
  title_en : String
  durs : List ℚ
  disc : ℚ
  base_fields : List (String × String)
  deriving DecidableEq

/-- Python float parsing for the price field: optional surrounding
whitespace, optional sign, decimal digits with an optional fractional
part (the source first replaces `,` with `.`). -/
def parsePyFloat (s : String) : Option ℚ :=
  let l := stripWs ((s.data).map (fun c => if c == ',' then '.' else c))
  let core : List Char → Option ℚ := fun l2 =>
    let ds := l2.takeWhile isDigitCh
    let rest := l2.dropWhile isDigitCh
    match rest with
    | [] => if ds.isEmpty then none else some ((digitsToNat ds : ℤ) : ℚ)
    | '.' :: rest2 =>
      let fs := rest2.takeWhile isDigitCh
      let rest3 := rest2.dropWhile isDigitCh
      if rest3.isEmpty ∧ ¬(ds.isEmpty ∧ fs.isEmpty) then
        some (qadd ((digitsToNat ds : ℤ) : ℚ)
          (Rat.divInt (digitsToNat fs) ((10 : ℤ) ^ fs.length)))
      else none
    | _ => none
  match l with
  | '-' :: rest => (core rest).map (fun q => -q)
  | '+' :: rest => core rest
  | _ => core l

/-- Id list parsing of `handle_lot_id` (src 276–281): split the raw text,
keep digit tokens, de-duplicate preserving order. -/
def parse_lot_ids (raw : String) : List ℤ :=
  let toks := pyTokens (stripWs raw.data)
  pyDedupZ ((toks.filter pyIsDigit).map (fun t => (digitsToNat t : ℤ)))

/-- Building one `BaseT` from a fetched `LotFieldsT` (src 295–309). -/
def mkBase (lf : LotFieldsT) : BaseT :=
  let title_ru :=
    match getKV lf.fields "fields[summary][ru]" with
    | some v => if v ≠ "" then v else if lf.title_ru ≠ "" then lf.title_ru else ""
    | none => if lf.title_ru ≠ "" then lf.title_ru else ""
  let title_en :=
    match getKV lf.fields "fields[summary][en]" with
    | some v => if v ≠ "" then v else if lf.title_en ≠ "" then lf.title_en else ""
    | none => if lf.title_en ≠ "" then lf.title_en else ""
  let price_1h :=
    match parsePyFloat ((getKV lf.fields "price").getD "") with
    | some q => q
    | none => lf.price
  { fields := lf.fields, title_ru := title_ru, title_en := title_en,
    price_1h := price_1h }

/-- The fetch loop of `handle_lot_id` (src 286–309): ids are fetched in
order; the first failing id aborts with that id. -/
def fetchLoop (fetch : ℤ → Option LotFieldsT) : List ℤ → Except ℤ (List (ℤ × BaseT))
  | [] => .ok []
  | i :: rest =>
    match fetch i with
    | none => .error i
    | some lf =>
      match fetchLoop fetch rest with
      | .ok l => .ok ((i, mkBase lf) :: l)
      | .error e => .error e

/-- Message text of the id prompt reply (src 322–329), summarised to its
constant part. -/
def idPromptMsg : String := "⏱ Укажите длительности через запятую."

/-- `handle_lot_id` (src 273–330): returns the messages sent and the
updated session map. -/
def handle_lot_id (fetch : ℤ → Option LotFieldsT) (text : String) (chat : ℤ)
    (session : List (ℤ × SessT)) : List String × List (ℤ × SessT) :=
  let ids := parse_lot_ids text
  if ids.isEmpty then
    (["❌ Не вижу ID. Пришлите один или несколько через запятую или пробел."], session)
  else
    match fetchLoop fetch ids with
    | .error bad =>
      (["❌ Не смог получить данные лота #" ++ intStr bad ++ "."], session)
    | .ok bases =>
      let first := ids.headD 0
      let firstBase := ((bases.find? (fun kv => kv.1 == first)).map
        (fun kv => kv.2)).getD ⟨[], "", "", 0⟩
      let sess : SessT :=
        { lot_ids := ids, bases := bases, price_1h := firstBase.price_1h,
          title_ru := firstBase.title_ru, title_en := firstBase.title_en,
          durs := [], disc := 0, base_fields := [] }
      let session' :=
        if session.any (fun kv => kv.1 == chat) then
          session.map (fun kv => if kv.1 == chat then (chat, sess) else kv)
        else session ++ [(chat, sess)]
      ([idPromptMsg], session')

/-! ### The batch orchestrator `cb_create` (src 431–508) -/

/-- Outcome of one `save_lot` call: an exception, or a return value
together with the post-save attributes of the submitted lot object. -/
inductive SubmitRes where
  | raise
  | ok (ret : SaveRet) (attrs : List (String × PyVal))
  deriving DecidableEq

def isRaise (r : SubmitRes) : Bool :=
  match r with
  | .raise => true
  | _ => false

/-- The per-variant field mapping built by `cb_create` (src 449–469). -/
def variantFields (base_fields : List (String × String))
    (title_ru title_en : String) (price_1h h disc : ℚ) (csrf : String) :
    List (String × String) :=
  let fields := base_fields
  let fields := setKV fields "price" (_fmt_price (cb_price price_1h h disc))
  let fields :=
    if title_ru ≠ "" then
      setKV fields "fields[summary][ru]" (_replace_hours_in_title title_ru h "ru" true)
    else fields
  let fields :=
    if title_en ≠ "" then
      setKV fields "fields[summary][en]" (_replace_hours_in_title title_en h "en" true)
    else fields
  let fields :=
    match getKV fields "fields[desc][ru]" with
    | some d => if d ≠ "" then
        setKV fields "fields[desc][ru]" (_replace_hours_in_title d h "ru" false)
      else fields
    | none => fields
  let fields :=
    match getKV fields "fields[desc][en]" with
    | some d => if d ≠ "" then
        setKV fields "fields[desc][en]" (_replace_hours_in_title d h "en" false)
      else fields
    | none => fields
  let fields := setKV fields "offer_id" "0"
  setKV fields "csrf_token" csrf

/-- One `CreationOutcome` (src 502): `(new_id, hours, source id)`. -/
abbrev Outcome := Option ℤ × ℚ × ℤ

/-- The inner loop of `cb_create` over the duration list for one source
lot (src 447–505): counts created/failed and collects outcomes. -/
def runDurs (store : ℤ → ℚ → SubmitRes) (inv : List InvItem) (csrf : String)
    (src : ℤ) (base_fields : List (String × String))
    (title_ru title_en : String) (price_1h disc : ℚ) :
    List ℚ → ℕ × ℕ × List Outcome
  | [] => (0, 0, [])
  | h :: rest =>
    let r := runDurs store inv csrf src base_fields title_ru title_en price_1h disc rest
    match store src h with
    | .raise => (r.1, r.2.1 + 1, r.2.2)
    | .ok ret attrs =>
      let fields := variantFields base_fields title_ru title_en price_1h h disc csrf
      let new_id := cb_recover_id ret attrs fields inv
      (r.1 + 1, r.2.1, (new_id, h, src) :: r.2.2)

/-- The outer loop of `cb_create` over the source lots (src 431–445). -/
def runSrcs (store : ℤ → ℚ → SubmitRes) (inv : List InvItem) (csrf : String)
    (sess : SessT) : List ℤ → ℕ × ℕ × List Outcome
  | [] => (0, 0, [])
  | src :: rest =>
    let base : BaseT :=
      match (sess.bases.find? (fun kv => kv.1 == src)).map (fun kv => kv.2) with
      | some b => b
      | none => { fields := sess.base_fields, title_ru := sess.title_ru,
                  title_en := sess.title_en, price_1h := sess.price_1h }
    let here := runDurs store inv csrf src base.fields base.title_ru base.title_en
      base.price_1h sess.disc sess.durs
    let rest' := runSrcs store inv csrf sess rest
    (here.1 + rest'.1, here.2.1 + rest'.2.1, here.2.2 ++ rest'.2.2)

/-- `cb_create`'s batch run (src 431–508): `(created, failed, outcomes)`. -/
def cb_create_run (sess : SessT) (store : ℤ → ℚ → SubmitRes)
    (inv : List InvItem) (csrf : String) : ℕ × ℕ × List Outcome :=
  runSrcs store inv csrf sess sess.lot_ids

/-- The ordered cross product of sources and durations, in the loop order
of `cb_create`. -/
def prodPairs (srcs : List ℤ) (durs : List ℚ) : List (ℤ × ℚ) :=
  srcs.foldr (fun s acc => durs.map (fun h => (s, h)) ++ acc) []

/-! ## Theorems

First the bridge lemmas relating the kernel-evaluable rational operations
to the standard `ℚ` arithmetic, then one theorem per claim. -/

theorem qadd_eq (a b : ℚ) : qadd a b = a + b := by
  rw [qadd]
  conv_rhs => rw [← Rat.num_divInt_den a, ← Rat.num_divInt_den b]
  rw [Rat.divInt_add_divInt _ _ (Int.natCast_ne_zero.mpr a.den_nz)
    (Int.natCast_ne_zero.mpr b.den_nz)]

theorem qsub_eq (a b : ℚ) : qsub a b = a - b := by
  rw [qsub]
  conv_rhs => rw [← Rat.num_divInt_den a, ← Rat.num_divInt_den b]
  rw [Rat.divInt_sub_divInt _ _ (Int.natCast_ne_zero.mpr a.den_nz)
    (Int.natCast_ne_zero.mpr b.den_nz)]

theorem qmul_eq (a b : ℚ) : qmul a b = a * b := by
  rw [qmul]
  conv_rhs => rw [← Rat.num_divInt_den a, ← Rat.num_divInt_den b]
  rw [Rat.divInt_mul_divInt']

theorem qdiv_eq (a b : ℚ) : qdiv a b = a / b := by
  rw [qdiv]
  conv_rhs => rw [← Rat.num_divInt_den a, ← Rat.num_divInt_den b]
  rw [Rat.divInt_div_divInt]

theorem ratFloor_eq (q : ℚ) : ratFloor q = ⌊q⌋ := by
  rw [Rat.floor_def]; rfl

theorem pyRound_floor_or_succ (q : ℚ) : pyRound q = ⌊q⌋ ∨ pyRound q = ⌊q⌋ + 1 := by
  unfold pyRound
  split_ifs <;> simp [ratFloor_eq]

theorem pyRound_nonneg {q : ℚ} (h : 0 ≤ q) : 0 ≤ pyRound q := by
  have hf : 0 ≤ ⌊q⌋ := Int.floor_nonneg.mpr h
  rcases pyRound_floor_or_succ q with h1 | h1 <;> omega

theorem intCast_of_den_one {q : ℚ} (h : q.den = 1) : ((q.num : ℤ) : ℚ) = q :=
  Rat.coe_int_num_of_den_eq_one h

theorem pyRound_of_den_one (q : ℚ) (h : q.den = 1) : pyRound q = q.num := by
  have hfloor : ratFloor q = q.num := by
    rw [ratFloor_eq, ← intCast_of_den_one h, Int.floor_intCast, Rat.num_intCast]
  have hr : qsub q ((ratFloor q : ℤ) : ℚ) = 0 := by
    rw [qsub_eq, hfloor, intCast_of_den_one h, sub_self]
  unfold pyRound
  rw [hr, if_pos (by decide : (0 : ℚ) < mkRat 1 2)]
  exact hfloor

/-- C1 (amended): the Locale A pluralization of `_ru_num_word` follows the
exact rule with the "few" form — not the "many" form — for non-integer
numerals: with `n = h mod 100`, 11–19 give "many", else by `n mod 10`
1 gives "one", 2–4 give "few", and anything else "many"; in particular
1 gives the "one" form, 2 the "few" form, 5 and 11 the "many" form,
21 the "one" form, and 1.5 the "few" form, for both the hour word and
the day word. -/
theorem c1_ru_plural_rule :
    (∀ (q : ℚ) (f1 f2 f3 : String), _ru_num_word q f1 f2 f3 = ruPluralRule q f1 f2 f3)
    ∧ _ru_hours_phrase 1 = "1 час" ∧ _ru_hours_phrase 2 = "2 часа"
    ∧ _ru_hours_phrase 5 = "5 часов" ∧ _ru_hours_phrase 11 = "11 часов"
    ∧ _ru_hours_phrase 21 = "21 час" ∧ _ru_hours_phrase (mkRat 3 2) = "1.5 часа"
    ∧ _ru_days_phrase 24 = some "1 день" ∧ _ru_days_phrase 48 = some "2 дня"
    ∧ _ru_days_phrase 120 = some "5 дней" ∧ _ru_days_phrase 264 = some "11 дней"
    ∧ _ru_days_phrase 504 = some "21 день" := by
  refine ⟨?_, by decide, by decide, by decide, by decide, by decide, by decide,
    by decide, by decide, by decide, by decide, by decide⟩
  intro q f1 f2 f3
  unfold _ru_num_word ruPluralRule
  by_cases hd : q.den = 1
  · simp only [hd, pyRound_of_den_one q hd]
  · simp [hd]

/-- C1 counterexample: the claim says a non-integer hour count selects the
"many" form, but `_ru_num_word` returns `forms[1]`, the "few" form:
1.5 hours renders as "часа", not "часов". -/
theorem c1_counterexample :
    _ru_num_word (mkRat 3 2) "час" "часа" "часов" = "часа"
    ∧ "часа" ≠ "часов" := by decide

/-- C2 (code bug): the structured-response strategy of the identifier
recovery is dead code.  When `save_lot` returns a mapping whose `url`
holds the new id 900123 and the later strategies find nothing, `cb_create`
records no identifier, because `new_id` is unconditionally reset to `None`
(src 481) right after the id was parsed from the mapping (src 475–479). -/
theorem c2_dict_id_discarded :
    dict_response_id (SaveRet.rdict "https://funpay.com/lots/offer?id=900123")
      = some 900123
    ∧ cb_recover_id (SaveRet.rdict "https://funpay.com/lots/offer?id=900123")
        [("lot_id", PyVal.pint 0), ("id", PyVal.pint 0), ("offer_id", PyVal.pstr "0")]
        [("offer_id", "0"), ("csrf_token", "token")] [] = none := by decide

/-- C3 counterexample: round-tripping the day-rendered value 24 fails.
`_ru_duration_phrase 24 = "1 день"`, and `_parse_durations` splits the
numeral from the unit, reading the bare "1" as one hour: the result is
{1}, not {24}. -/
theorem c3_counterexample :
    _parse_durations (_ru_duration_phrase 24) = [1] ∧ (1 : ℚ) ≠ 24 := by decide

/-- C3 (amended): formatting then re-parsing returns the original hour
value for the hour-rendered values 0.5, 1, 1.5, 6 and 23; for the
day-rendered values 24, 48, 72 the parser reads back the day count as
hours (1, 2, 3), because tokenization on whitespace separates the numeral
from the day word and a bare numeral defaults to hours. -/
theorem c3_roundtrip :
    _parse_durations (_ru_duration_phrase (mkRat 1 2)) = [mkRat 1 2]
    ∧ _parse_durations (_ru_duration_phrase 1) = [1]
    ∧ _parse_durations (_ru_duration_phrase (mkRat 3 2)) = [mkRat 3 2]
    ∧ _parse_durations (_ru_duration_phrase 6) = [6]
    ∧ _parse_durations (_ru_duration_phrase 23) = [23]
    ∧ _parse_durations (_ru_duration_phrase 24) = [1]
    ∧ _parse_durations (_ru_duration_phrase 48) = [2]
    ∧ _parse_durations (_ru_duration_phrase 72) = [3] := by decide

theorem mem_pyDedupAux : ∀ (l seen : List ℚ) (x : ℚ),
    x ∈ pyDedupAux l seen ↔ (x ∈ l ∧ x ∉ seen) := by
  intro l
  induction l with
  | nil => intro seen x; simp [pyDedupAux]
  | cons a as ih =>
    intro seen x
    by_cases hs : seen.any (fun y => decide (y = a))
    · have ha : a ∈ seen := by
        rcases List.any_eq_true.mp hs with ⟨y, hy, hd⟩
        exact (of_decide_eq_true hd) ▸ hy
      rw [pyDedupAux, if_pos hs, ih]
      rcases eq_or_ne x a with rfl | hxa
      · simp [ha]
      · simp [hxa]
    · have ha : a ∉ seen := by
        intro hmem
        exact hs (List.any_eq_true.mpr ⟨a, hmem, decide_eq_true rfl⟩)
      rw [pyDedupAux, if_neg hs]
      rcases eq_or_ne x a with rfl | hxa
      · simp [ha]
      · simp only [List.mem_cons, hxa, false_or, ih, List.mem_cons,
          or_iff_right hxa]

theorem nodup_pyDedupAux : ∀ (l seen : List ℚ), (pyDedupAux l seen).Nodup := by
  intro l
  induction l with
  | nil => intro seen; simp [pyDedupAux]
  | cons a as ih =>
    intro seen
    by_cases hs : seen.any (fun y => decide (y = a))
    · rw [pyDedupAux, if_pos hs]; exact ih _
    · rw [pyDedupAux, if_neg hs]
      refine List.nodup_cons.mpr ⟨?_, ih _⟩
      intro hmem
      exact ((mem_pyDedupAux as (a :: seen) a).mp hmem).2 (List.mem_cons_self a seen)

theorem mem_pyDedup (l : List ℚ) (x : ℚ) : x ∈ pyDedup l ↔ x ∈ l := by
  rw [pyDedup, mem_pyDedupAux]
  simp

theorem nodup_pyDedup (l : List ℚ) : (pyDedup l).Nodup := nodup_pyDedupAux l []

theorem tokVal_eq_some (tok : List Char) (x : ℚ) :
    tokVal tok = some x ↔ ∃ hv, tokenHours tok = some hv ∧ 0 < hv ∧ x = round2 hv := by
  unfold tokVal
  cases h : tokenHours tok with
  | none => simp
  | some hv =>
    by_cases hpos : 0 < hv
    · simp [hpos, eq_comm]
    · simp [hpos]

/-- C4 counterexample: every value of the output is claimed positive, but
parsing "0.001" yields the single value 0 (the token is positive, so it is
kept, and rounding to two decimals collapses it to 0). -/
theorem c4_counterexample :
    _parse_durations "0.001" = [0]
    ∧ ¬ (∀ x ∈ _parse_durations "0.001", 0 < x) := by decide

/-- C4 (amended): `_parse_durations` returns a strictly ascending list of
distinct two-decimal values; a value belongs to the output exactly when
some whitespace-free token denotes a positive hour count (bare numbers as
hours, day units times 24, non-matching tokens dropped) rounding to it;
every output value is non-negative — but only non-negative, not positive,
since a token below 0.005 rounds to 0.  Parsing "6, 0.5, 6h, 1d" yields
exactly [0.5, 6, 24]. -/
theorem c4_parse_durations :
    (∀ text : String,
      (_parse_durations text).Sorted (· < ·)
      ∧ (∀ x : ℚ, x ∈ _parse_durations text ↔
          ∃ tok ∈ pyTokens (stripWs (pyLowerL text.data)), ∃ hv,
            tokenHours tok = some hv ∧ 0 < hv ∧ x = round2 hv)
      ∧ (∀ x ∈ _parse_durations text, 0 ≤ x ∧ (x * 100 : ℚ).den = 1))
    ∧ _parse_durations "6, 0.5, 6h, 1d" = [mkRat 1 2, 6, 24] := by
  refine ⟨?_, by decide⟩
  intro text
  have hmem : ∀ x : ℚ, x ∈ _parse_durations text ↔
      ∃ tok ∈ pyTokens (stripWs (pyLowerL text.data)), ∃ hv,
        tokenHours tok = some hv ∧ 0 < hv ∧ x = round2 hv := by
    intro x
    unfold _parse_durations
    rw [List.mem_insertionSort, mem_pyDedup, List.mem_filterMap]
    constructor
    · rintro ⟨tok, htok, hval⟩
      rcases (tokVal_eq_some tok x).mp hval with ⟨hv, h1, h2, h3⟩
      exact ⟨tok, htok, hv, h1, h2, h3⟩
    · rintro ⟨tok, htok, hv, h1, h2, h3⟩
      exact ⟨tok, htok, (tokVal_eq_some tok x).mpr ⟨hv, h1, h2, h3⟩⟩
  refine ⟨?_, hmem, ?_⟩
  · unfold _parse_durations
    have hnd : (List.insertionSort (· ≤ ·)
        (pyDedup ((pyTokens (stripWs (pyLowerL text.data))).filterMap tokVal))).Nodup :=
      ((List.perm_insertionSort _ _).nodup_iff).mpr (nodup_pyDedup _)
    exact (List.sorted_insertionSort _ _).lt_of_le hnd
  · intro x hx
    rcases (hmem x).mp hx with ⟨tok, _, hv, _, hpos, hx2⟩
    have h100 : (0 : ℚ) ≤ qmul hv 100 := by
      rw [qmul_eq]; positivity
    have hpr : 0 ≤ pyRound (qmul hv 100) := pyRound_nonneg h100
    have hxd : x = ((pyRound (qmul hv 100) : ℤ) : ℚ) / 100 := by
      rw [hx2, round2, Rat.divInt_eq_div]; norm_num
    constructor
    · rw [hxd]
      have : (0 : ℚ) ≤ ((pyRound (qmul hv 100) : ℤ) : ℚ) := by exact_mod_cast hpr
      positivity
    · have hx100 : (x * 100 : ℚ) = ((pyRound (qmul hv 100) : ℤ) : ℚ) := by
        rw [hxd]; field_simp
      rw [hx100, Rat.den_intCast]

/-- Witness for C4: 24 is in the parse of "6, 0.5, 6h, 1d", and the
amended theorem yields its non-negativity and two-decimal form there. -/
theorem c4_parse_durations_witness :
    (24 : ℚ) ∈ _parse_durations "6, 0.5, 6h, 1d"
    ∧ 0 ≤ (24 : ℚ) ∧ ((24 : ℚ) * 100).den = 1 := by
  have hm : (24 : ℚ) ∈ _parse_durations "6, 0.5, 6h, 1d" := by decide
  exact ⟨hm, ((c4_parse_durations.1 "6, 0.5, 6h, 1d").2.2) 24 hm⟩

/-- C5: the submitted storage price is
`basePricePerHour × hours × (1 − discount/100)` rendered as a fixed
6-decimal string, and the preview display price is that product rounded
to the nearest integer (Python `round`); in particular base 100, hours 6,
discount 10 produce "540.000000" and 540. -/
theorem c5_price_law :
    (∀ base h disc : ℚ, 0 ≤ base → 0 ≤ h → 0 ≤ disc → disc ≤ 90 →
      _fmt_price (cb_price base h disc) = _fmt_price (base * h * (1 - disc / 100))
      ∧ preview_price base h disc = pyRound (base * h * (1 - disc / 100)))
    ∧ _fmt_price (cb_price 100 6 10) = "540.000000"
    ∧ preview_price 100 6 10 = 540 := by
  refine ⟨?_, by decide, by decide⟩
  intro base h disc _ _ _ _
  have key : cb_price base h disc = base * h * (1 - disc / 100) := by
    unfold cb_price
    by_cases hd : disc = 0
    · simp [hd, qmul_eq]
    · simp [hd, qmul_eq, qsub_eq, qdiv_eq]
  exact ⟨by rw [key], by unfold preview_price; rw [key]⟩

/-- Witness for C5: the hypotheses hold at base 100, hours 6, discount 10,
and there the 6-decimal rendering of the product is "540.000000". -/
theorem c5_price_law_witness :
    ((0:ℚ) ≤ 100 ∧ (0:ℚ) ≤ 6 ∧ (0:ℚ) ≤ 10 ∧ (10:ℚ) ≤ 90)
    ∧ _fmt_price ((100 : ℚ) * 6 * (1 - 10 / 100)) = "540.000000" := by
  have h := (c5_price_law.1 100 6 10 (by norm_num) (by norm_num) (by norm_num)
    (by norm_num)).1
  exact ⟨⟨by norm_num, by norm_num, by norm_num, by norm_num⟩,
    by rw [← h]; exact c5_price_law.2.1⟩

/-- C7: rewriting "Boost • for 3 hours • fast" to 6 hours in the English
locale changes only the duration substring — the prefix "Boost • " and the
suffix " • fast" are untouched. -/
theorem c7_locality :
    _replace_hours_in_title "Boost • for 3 hours • fast" 6 "en" true
      = "Boost • " ++ "for 6 hours" ++ " • fast" := by decide

/-- C10: rewriting an empty text returns the empty text unchanged for
every hours value, locale and insertion flag. -/
theorem c10_empty_text (h : ℚ) (loc : String) (allow : Bool) :
    _replace_hours_in_title "" h loc allow = "" := by
  simp [_replace_hours_in_title]

theorem subnAux_snd_ind (p : RE) (r r' : Repl) (s : List Char) :
    ∀ fuel lim i, (subnAux p r s fuel lim i).2 = (subnAux p r' s fuel lim i).2 := by
  intro fuel
  induction fuel with
  | zero => intro lim i; rfl
  | succ f ih =>
    intro lim i
    cases lim with
    | zero => rfl
    | succ l =>
      simp only [subnAux]
      rcases hm : reMatch s p i none (fun j g => some (j, g)) with _ | ⟨j, g⟩
      · simp only [hm]
        rcases hc : s.get? i with _ | c
        · rfl
        · simp only [ih]
      · simp only [hm]
        by_cases hj : j > i
        · simp only [if_pos hj, ih]
        · simp only [if_neg hj]
          rcases hc : s.get? i with _ | c <;> simp only [ih]

theorem pySubn_count (p : RE) (r : Repl) (s : List Char) :
    (pySubn p r s).2 = matchCount p s :=
  subnAux_snd_ind p r (.const []) s _ _ _

theorem tryPats_eq_none (t : List Char) : ∀ pats : List (RE × Repl),
    (∀ p ∈ pats, matchCount p.1 t = 0) → tryPats pats t = none := by
  intro pats
  induction pats with
  | nil => intro _; rfl
  | cons hd rest ih =>
    intro hall
    obtain ⟨re, rp⟩ := hd
    have h0 : (pySubn re rp t).2 = 0 := by
      rw [pySubn_count]
      exact hall (re, rp) (List.mem_cons_self _ _)
    simp only [tryPats, h0, gt_iff_lt, lt_self_iff_false, if_false]
    exact ih (fun p hp => hall p (List.mem_cons_of_mem _ hp))

theorem tryPats_first (t : List Char) : ∀ (pats : List (RE × Repl)) (i : ℕ)
    (p : RE × Repl), pats[i]? = some p → 0 < matchCount p.1 t →
    (∀ j q, j < i → pats[j]? = some q → matchCount q.1 t = 0) →
    tryPats pats t = some (pySubn p.1 p.2 t).1 := by
  intro pats
  induction pats with
  | nil => intro i p h; simp at h
  | cons hd rest ih =>
    intro i p hget hpos hprev
    cases i with
    | zero =>
      simp only [List.getElem?_cons_zero, Option.some.injEq] at hget
      obtain ⟨re, rp⟩ := hd
      subst hget
      have hc : 0 < (pySubn re rp t).2 := by rw [pySubn_count]; exact hpos
      simp only [tryPats, gt_iff_lt, hc, if_true]
    | succ n =>
      have h0 : matchCount hd.1 t = 0 :=
        hprev 0 hd (Nat.succ_pos n) (by simp)
      obtain ⟨re, rp⟩ := hd
      have hc : (pySubn re rp t).2 = 0 := by rw [pySubn_count]; exact h0
      simp only [tryPats, hc, gt_iff_lt, lt_self_iff_false, if_false]
      exact ih n p (by simpa using hget) hpos
        (fun j q hj hq => hprev (j + 1) q (Nat.succ_lt_succ hj) (by simpa using hq))

theorem ruPats_map_fst (h : ℚ) : (ruPats h).map Prod.fst = ruREs := rfl

theorem enPats_map_fst (h : ℚ) : (enPats h).map Prod.fst = enREs := rfl

theorem patsFor_empty_count (loc : String) (h : ℚ) :
    ∀ p ∈ patsFor loc h, matchCount p.1 [] = 0 := by
  intro p hp
  obtain ⟨re, rp⟩ := p
  show matchCount re [] = 0
  have hfst : re ∈ ruREs ∨ re ∈ enREs := by
    unfold patsFor at hp
    split at hp
    · exact Or.inl (ruPats_map_fst h ▸ List.mem_map_of_mem Prod.fst hp)
    · exact Or.inr (enPats_map_fst h ▸ List.mem_map_of_mem Prod.fst hp)
  rcases hfst with h1 | h1 <;> fin_cases h1 <;> decide

/-- C6: for every text, target hours and locale, `_replace_hours_in_title`
tries its locale's pattern list in the fixed priority order: the first
pattern that matches anywhere has all of its occurrences replaced (the
result is exactly that single pattern's global substitution, so no
lower-priority pattern contributes), and when no pattern matches and
insertion is disallowed the text is returned exactly unchanged. -/
theorem c6_cascade (t : String) (h : ℚ) (loc : String) :
    ((∀ p ∈ patsFor loc h, matchCount p.1 t.data = 0) →
      _replace_hours_in_title t h loc false = t)
    ∧ (∀ (i : ℕ) (p : RE × Repl), (patsFor loc h)[i]? = some p →
        0 < matchCount p.1 t.data →
        (∀ j q, j < i → (patsFor loc h)[j]? = some q → matchCount q.1 t.data = 0) →
        ∀ allow : Bool, _replace_hours_in_title t h loc allow
          = String.mk (pySubn p.1 p.2 t.data).1) := by
  constructor
  · intro hall
    by_cases ht : t = ""
    · rw [ht]; rfl
    · have hnone : tryPats (patsFor loc h) t.data = none := tryPats_eq_none _ _ hall
      by_cases hloc : pyLowerL loc.data = "ru".data
      · rw [patsFor, if_pos hloc] at hnone
        simp [_replace_hours_in_title, ht, hloc, hnone]
      · rw [patsFor, if_neg hloc] at hnone
        simp [_replace_hours_in_title, ht, hloc, hnone]
  · intro i p hget hpos hprev allow
    have ht : t ≠ "" := by
      intro ht
      have h0 := patsFor_empty_count loc h p (List.getElem?_mem hget)
      rw [ht] at hpos
      simp only [String.data] at hpos
      omega
    have hsome : tryPats (patsFor loc h) t.data = some (pySubn p.1 p.2 t.data).1 :=
      tryPats_first _ _ i p hget hpos hprev
    by_cases hloc : pyLowerL loc.data = "ru".data
    · rw [patsFor, if_pos hloc] at hsome
      simp [_replace_hours_in_title, ht, hloc, hsome]
    · rw [patsFor, if_neg hloc] at hsome
      simp [_replace_hours_in_title, ht, hloc, hsome]

/-- Witness for C6: the ratio-prefix pattern (priority 0) is the first
match in "1 ч - 3 часа", and the rewrite equals that pattern's global
substitution: "1 ч - 6 часов". -/
theorem c6_cascade_witness :
    _replace_hours_in_title "1 ч - 3 часа" 6 "ru" true = "1 ч - 6 часов" := by
  have h := (c6_cascade "1 ч - 3 часа" 6 "ru").2 0
    (ruREs.headD RE.eps, Repl.g1 (_ru_hours_phrase 6).data)
    (by decide) (by decide)
    (fun j q hj _ => absurd hj (Nat.not_lt_zero j)) true
  rw [h]
  decide

theorem runDurs_spec (store : ℤ → ℚ → SubmitRes) (inv : List InvItem)
    (csrf : String) (src : ℤ) (bf : List (String × String))
    (tru ten : String) (p1h disc : ℚ) : ∀ durs : List ℚ,
    (runDurs store inv csrf src bf tru ten p1h disc durs).1
      = (durs.filter (fun h => !isRaise (store src h))).length
    ∧ (runDurs store inv csrf src bf tru ten p1h disc durs).2.1
      = (durs.filter (fun h => isRaise (store src h))).length
    ∧ (runDurs store inv csrf src bf tru ten p1h disc durs).2.2.map
        (fun d => (d.2.2, d.2.1))
      = (durs.filter (fun h => !isRaise (store src h))).map (fun h => (src, h)) := by
  intro durs
  induction durs with
  | nil => exact ⟨rfl, rfl, rfl⟩
  | cons h rest ih =>
    obtain ⟨ih1, ih2, ih3⟩ := ih
    rcases hs : store src h with _ | ⟨ret, attrs⟩
    · exact ⟨by simp [runDurs, hs, isRaise, ih1, List.filter_cons],
        by simp [runDurs, hs, isRaise, ih2, List.filter_cons],
        by simp [runDurs, hs, isRaise, ih3, List.filter_cons]⟩
    · exact ⟨by simp [runDurs, hs, isRaise, ih1, List.filter_cons],
        by simp [runDurs, hs, isRaise, ih2, List.filter_cons],
        by simp [runDurs, hs, isRaise, ih3, List.filter_cons]⟩

theorem runSrcs_spec (store : ℤ → ℚ → SubmitRes) (inv : List InvItem)
    (csrf : String) (sess : SessT) : ∀ srcs : List ℤ,
    (runSrcs store inv csrf sess srcs).1
      = ((prodPairs srcs sess.durs).filter (fun pr => !isRaise (store pr.1 pr.2))).length
    ∧ (runSrcs store inv csrf sess srcs).2.1
      = ((prodPairs srcs sess.durs).filter (fun pr => isRaise (store pr.1 pr.2))).length
    ∧ (runSrcs store inv csrf sess srcs).2.2.map (fun d => (d.2.2, d.2.1))
      = (prodPairs srcs sess.durs).filter (fun pr => !isRaise (store pr.1 pr.2)) := by
  intro srcs
  induction srcs with
  | nil => exact ⟨rfl, rfl, rfl⟩
  | cons src rest ih =>
    obtain ⟨ih1, ih2, ih3⟩ := ih
    obtain ⟨d1, d2, d3⟩ := runDurs_spec store inv csrf src _ _ _ _ sess.disc sess.durs
    have hprod : prodPairs (src :: rest) sess.durs
        = sess.durs.map (fun h => (src, h)) ++ prodPairs rest sess.durs := rfl
    have hfil : ∀ b : Bool, (sess.durs.map (fun h => (src, h))).filter
        (fun pr => (!isRaise (store pr.1 pr.2)) == b)
        = (sess.durs.filter (fun h => (!isRaise (store src h)) == b)).map
            (fun h => (src, h)) := by
      intro b
      rw [List.filter_map]
      rfl
    constructor
    · show (runDurs store inv csrf src _ _ _ _ sess.disc sess.durs).1
        + (runSrcs store inv csrf sess rest).1 = _
      rw [hprod, List.filter_append, List.length_append, ih1, d1,
        List.filter_map, List.length_map]
      rfl
    constructor
    · show (runDurs store inv csrf src _ _ _ _ sess.disc sess.durs).2.1
        + (runSrcs store inv csrf sess rest).2.1 = _
      rw [hprod, List.filter_append, List.length_append, ih2, d2,
        List.filter_map, List.length_map]
      rfl
    · show ((runDurs store inv csrf src _ _ _ _ sess.disc sess.durs).2.2
        ++ (runSrcs store inv csrf sess rest).2.2).map (fun d => (d.2.2, d.2.1)) = _
      rw [hprod, List.filter_append, List.map_append, ih3, d3, List.filter_map]
      rfl

/-- C8: every per-variant submission of the batch orchestrator is
fault-isolated: the created count is the number of (source, hours) pairs
whose submission succeeds, the failed count the number that raise, and a
raising pair appears nowhere in the outcome list; processing always covers
the whole cross product. -/
theorem c8_fault_isolation (sess : SessT) (store : ℤ → ℚ → SubmitRes)
    (inv : List InvItem) (csrf : String) :
    (cb_create_run sess store inv csrf).1
      = ((prodPairs sess.lot_ids sess.durs).filter
          (fun pr => !isRaise (store pr.1 pr.2))).length
    ∧ (cb_create_run sess store inv csrf).2.1
      = ((prodPairs sess.lot_ids sess.durs).filter
          (fun pr => isRaise (store pr.1 pr.2))).length
    ∧ ∀ s h, store s h = SubmitRes.raise →
        ∀ nid, (nid, h, s) ∉ (cb_create_run sess store inv csrf).2.2 := by
  obtain ⟨h1, h2, h3⟩ := runSrcs_spec store inv csrf sess sess.lot_ids
  refine ⟨h1, h2, ?_⟩
  intro s h hraise nid hmem
  have hin : (s, h) ∈ (prodPairs sess.lot_ids sess.durs).filter
      (fun pr => !isRaise (store pr.1 pr.2)) := by
    rw [← h3]
    exact List.mem_map_of_mem _ hmem
  have hb := List.of_mem_filter hin
  rw [hraise] at hb
  simp [isRaise] at hb

/-- Witness for C8: 2 sources and 3 durations with exactly the submission
for (20, 2) raising give 5 created, 1 failed, and the raising pair absent
from the outcomes. -/
theorem c8_fault_isolation_witness :
    (cb_create_run
        ⟨[10, 20], [(10, ⟨[], "", "", 100⟩), (20, ⟨[], "", "", 100⟩)], 100, "",
          "", [1, 2, 3], 10, []⟩
        (fun s h => if s = 20 ∧ h = 2 then SubmitRes.raise
          else SubmitRes.ok (SaveRet.rint 777) []) [] "tok").1 = 5
    ∧ (cb_create_run
        ⟨[10, 20], [(10, ⟨[], "", "", 100⟩), (20, ⟨[], "", "", 100⟩)], 100, "",
          "", [1, 2, 3], 10, []⟩
        (fun s h => if s = 20 ∧ h = 2 then SubmitRes.raise
          else SubmitRes.ok (SaveRet.rint 777) []) [] "tok").2.1 = 1
    ∧ (some 777, (2 : ℚ), (20 : ℤ)) ∉ (cb_create_run
        ⟨[10, 20], [(10, ⟨[], "", "", 100⟩), (20, ⟨[], "", "", 100⟩)], 100, "",
          "", [1, 2, 3], 10, []⟩
        (fun s h => if s = 20 ∧ h = 2 then SubmitRes.raise
          else SubmitRes.ok (SaveRet.rint 777) []) [] "tok").2.2 := by
  refine ⟨by decide, by decide, ?_⟩
  exact (c8_fault_isolation
      ⟨[10, 20], [(10, ⟨[], "", "", 100⟩), (20, ⟨[], "", "", 100⟩)], 100, "",
        "", [1, 2, 3], 10, []⟩
      (fun s h => if s = 20 ∧ h = 2 then SubmitRes.raise
        else SubmitRes.ok (SaveRet.rint 777) []) [] "tok").2.2 20 2 (by decide)
    (some 777)

theorem fetchLoop_error (fetch : ℤ → Option LotFieldsT) : ∀ (ids : List ℤ) (bad : ℤ),
    ids.find? (fun i => (fetch i).isNone) = some bad →
    fetchLoop fetch ids = .error bad := by
  intro ids
  induction ids with
  | nil => intro bad h; simp [List.find?] at h
  | cons i rest ih =>
    intro bad h
    by_cases hp : ((fun i => (fetch i).isNone) i : Bool)
    · rw [@List.find?_cons_of_pos _ (fun i => (fetch i).isNone) i rest hp] at h
      have : i = bad := by simpa using h
      subst this
      have hnone : fetch i = none := Option.isNone_iff_eq_none.mp hp
      simp [fetchLoop, hnone]
    · rw [@List.find?_cons_of_neg _ (fun i => (fetch i).isNone) i rest hp] at h
      rcases ho : fetch i with _ | lf
      · exact absurd (by simp [ho]) hp
      · simp [fetchLoop, ho, ih bad h]

/-- C9: in the WAIT_LOT step, a failing fetch for the first failing
requested id aborts the whole step: the only message names that id, and
the session map is returned unchanged — no session, partial or otherwise,
is created for the conversation key. -/
theorem c9_fetch_failure_aborts (fetch : ℤ → Option LotFieldsT) (text : String)
    (chat : ℤ) (session : List (ℤ × SessT)) (bad : ℤ)
    (h : (parse_lot_ids text).find? (fun i => (fetch i).isNone) = some bad) :
    handle_lot_id fetch text chat session
      = (["❌ Не смог получить данные лота #" ++ intStr bad ++ "."], session) := by
  have hne : (parse_lot_ids text).isEmpty = false := by
    rcases he : parse_lot_ids text with _ | ⟨x, xs⟩
    · rw [he] at h; simp [List.find?] at h
    · rfl
  have herr := fetchLoop_error fetch (parse_lot_ids text) bad h
  simp [handle_lot_id, hne, herr]

/-- Witness for C9: with lot 301 fetchable and 999999 not, the step on
"301, 999999" reports lot 999999 and leaves the session map unchanged. -/
theorem c9_fetch_failure_aborts_witness :
    (parse_lot_ids "301, 999999").find?
        (fun i => ((fun j => if j = (301 : ℤ)
          then some (⟨[("price", "100")], "", "", 0⟩ : LotFieldsT)
          else none) i).isNone) = some 999999
    ∧ handle_lot_id
        (fun j => if j = (301 : ℤ)
          then some (⟨[("price", "100")], "", "", 0⟩ : LotFieldsT) else none)
        "301, 999999" 7 []
      = (["❌ Не смог получить данные лота #999999."], []) := by
  refine ⟨by decide, ?_⟩
  have h := c9_fetch_failure_aborts
    (fun j => if j = (301 : ℤ)
      then some (⟨[("price", "100")], "", "", 0⟩ : LotFieldsT) else none)
    "301, 999999" 7 [] 999999 (by decide)
  rw [h]
  decide

end Lcot
